import Mathlib

/-!
# Verification of the CortexAI Tally BI data-access and orchestration layers

Shallow embedding of `tally_mcp.py`, `snapshot.py` and `orchestrator.py`.

Modelling conventions:
* Python strings are Lean `String` (a list of characters).
* Python `float` amounts are modelled as `Rat`; the program only ever
  parses decimal literals of the form `[+-]digits[.digits]`, so the
  rational model is exact on every value the program handles.  The
  exotic parts of Python's float grammar (exponents, `inf`, `nan`,
  underscores) are not exercised by the code paths under study and are
  not modelled: `pyFloat?` returns `none` on them, exactly as it does
  on any other unparsable text.
* A Python function that can raise is modelled with `Except`/`Option`;
  a total Lean function models a Python function that cannot raise.
* Parsed XML (`xml.etree.ElementTree`) is modelled by the tree type
  `XElem`; `ET.fromstring` is the bridge from text to trees and is not
  re-implemented, the parsers are verified on the parsed trees.
-/

set_option maxRecDepth 4000

namespace CortexAI

/-! ## Python string primitives -/

/-- The whitespace characters stripped by Python's `str.strip()` /
matched by the regex class `\s` (ASCII part; the program only ever
meets ASCII whitespace): space, tab, newline, carriage return, vertical
tab, form feed. -/
def isPySpace (c : Char) : Bool :=
  c.toNat = 32 || c.toNat = 9 || c.toNat = 10 || c.toNat = 13 ||
  c.toNat = 11 || c.toNat = 12

/-- Characters matched by the regex class `\w` (ASCII part):
`[a-zA-Z0-9_]`. -/
def isWordChar (c : Char) : Bool :=
  (97 ≤ c.toNat && c.toNat ≤ 122) || (65 ≤ c.toNat && c.toNat ≤ 90) ||
  (48 ≤ c.toNat && c.toNat ≤ 57) || c.toNat = 95

/-- Python `str.strip()`. -/
def pyStrip (s : String) : String :=
  ⟨((s.data.dropWhile isPySpace).reverse.dropWhile isPySpace).reverse⟩

/-- Numeric value of a list of decimal digits. -/
def digitsToNat (l : List Char) : Nat :=
  l.foldl (fun n c => n * 10 + (c.toNat - '0'.toNat)) 0

/-- Python's `abs` on a number: negate exactly the negatives. -/
def ratAbs (q : Rat) : Rat :=
  if q < 0 then -q else q

/-- Unsigned part of Python's `float()` grammar: `digits[.digits]`,
`digits.` or `.digits`; at least one digit overall.  The value
`ip.fp` is the exact rational `(ip·10^k + fp) / 10^k`. -/
def parseUnsigned (l : List Char) : Option Rat :=
  let ip := l.takeWhile Char.isDigit
  let rest := l.dropWhile Char.isDigit
  match rest with
  | [] => if ip = [] then none else some (mkRat (digitsToNat ip) 1)
  | '.' :: rest2 =>
    let fp := rest2.takeWhile Char.isDigit
    let rest3 := rest2.dropWhile Char.isDigit
    if rest3 = [] && !(ip = [] && fp = []) then
      some (mkRat (digitsToNat ip * 10 ^ fp.length + digitsToNat fp) (10 ^ fp.length))
    else none
  | _ => none

/-- Python `float(s)`: strip whitespace, optional sign, decimal literal.
`none` models `ValueError`. -/
def pyFloat? (s : String) : Option Rat :=
  match (pyStrip s).data with
  | '+' :: rest => parseUnsigned rest
  | '-' :: rest => (parseUnsigned rest).map (fun q => -q)
  | l => parseUnsigned l

/-- Does the second list start with the first one? -/
def startsWithChars : List Char → List Char → Bool
  | [], _ => true
  | _ :: _, [] => false
  | p :: ps, c :: cs => p = c && startsWithChars ps cs

/-- Does the needle occur as a contiguous run in the haystack? -/
def containsSub (needle : List Char) : List Char → Bool
  | [] => needle.isEmpty
  | c :: rest => startsWithChars needle (c :: rest) || containsSub needle rest

/-- `needle in hay` on Python strings. -/
def strContains (hay needle : String) : Bool :=
  containsSub needle.data hay.data

/-! ## XML element trees (`xml.etree.ElementTree`) -/

mutual
/-- A parsed XML element: tag, attributes, direct text content, children.
`text` is `none` when the element has no text node (ElementTree's
`el.text is None`).  The child sequence is the isomorphic copy `XElems`
of `List XElem`, inlined as a mutual inductive so that recursion over
the tree is plain structural recursion (and therefore both executable
and reducible inside the kernel). -/
inductive XElem where
  | mk (tag : String) (attrs : List (String × String))
      (text : Option String) (children : XElems)
/-- A sequence of XML elements (`List XElem`, inlined). -/
inductive XElems where
  | nil
  | cons (head : XElem) (tail : XElems)
end

/-- The tag of an element. -/
def XElem.tag : XElem → String
  | .mk t _ _ _ => t

/-- The attributes of an element. -/
def XElem.attrs : XElem → List (String × String)
  | .mk _ a _ _ => a

/-- The direct text content of an element. -/
def XElem.text : XElem → Option String
  | .mk _ _ tx _ => tx

/-- The children of an element. -/
def XElem.children : XElem → XElems
  | .mk _ _ _ cs => cs

/-- View a child sequence as a list. -/
def XElems.toList : XElems → List XElem
  | .nil => []
  | .cons c rest => c :: rest.toList

/-- Build a child sequence from a list. -/
def XElems.ofList : List XElem → XElems
  | [] => .nil
  | c :: rest => .cons c (XElems.ofList rest)

/-- Element builder taking the children as a list. -/
def xel (tag : String) (attrs : List (String × String))
    (text : Option String) (children : List XElem) : XElem :=
  ⟨tag, attrs, text, XElems.ofList children⟩

mutual
/-- Document-order (preorder) traversal of an element: the element
itself, then its children's traversals, left to right. -/
def XElem.allElems : XElem → List XElem
  | .mk t a tx cs => .mk t a tx cs :: XElems.allElems cs
/-- Document-order traversal of a sequence of elements. -/
def XElems.allElems : XElems → List XElem
  | .nil => []
  | .cons c rest => XElem.allElems c ++ XElems.allElems rest
end

/-- `el.iter(tag)`: all descendants (self included) with the given tag,
in document order. -/
def XElem.iterTag (e : XElem) (tag : String) : List XElem :=
  e.allElems.filter (fun c => c.tag = tag)

/-- `el.find(tag)`: first direct child with the given tag. -/
def XElem.find (e : XElem) (tag : String) : Option XElem :=
  e.children.toList.find? (fun c => c.tag = tag)

/-- `el.findtext(tag, default)`: text of the first direct child with the
given tag (the empty string when that child has no text), or the
default when there is no such child. -/
def XElem.findtext (e : XElem) (tag dflt : String) : String :=
  match e.find tag with
  | some c => c.text.getD ""
  | none => dflt

/-- `el.get(name)`: attribute lookup. -/
def XElem.get (e : XElem) (name : String) : Option String :=
  (e.attrs.find? (fun p => p.1 = name)).map (fun p => p.2)

/-! ## XML sanitization (`_clean_xml`, tally_mcp.py lines 80-90) -/

/-- Single digits matched by the `[0-8]` branch of `_ILLEGAL_XML_CHARS`. -/
def singleRefDigit (d : Char) : Bool :=
  '0' ≤ d && d ≤ '8'

/-- Digit pairs matched by the `1[0-1]|1[4-9]|2[0-9]|3[01]` branches of
`_ILLEGAL_XML_CHARS`. -/
def twoRefDigits (d₁ d₂ : Char) : Bool :=
  (d₁ = '1' && (d₂ = '0' || d₂ = '1' || ('4' ≤ d₂ && d₂ ≤ '9'))) ||
  (d₁ = '2' && ('0' ≤ d₂ && d₂ ≤ '9')) ||
  (d₁ = '3' && (d₂ = '0' || d₂ = '1'))

/-- One pass of `_ILLEGAL_XML_CHARS.sub('', raw)` driven by a fuel
counter (the scan consumes at least one character per step, so any fuel
of at least the list's length yields the untruncated scan). -/
def subIllegalRefsAux : Nat → List Char → List Char
  | 0, l => l
  | _ + 1, [] => []
  | fuel + 1, '&' :: '#' :: d :: ';' :: rest =>
    if singleRefDigit d then subIllegalRefsAux fuel rest
    else '&' :: subIllegalRefsAux fuel ('#' :: d :: ';' :: rest)
  | fuel + 1, '&' :: '#' :: d₁ :: d₂ :: ';' :: rest =>
    if twoRefDigits d₁ d₂ then subIllegalRefsAux fuel rest
    else '&' :: subIllegalRefsAux fuel ('#' :: d₁ :: d₂ :: ';' :: rest)
  | fuel + 1, c :: rest => c :: subIllegalRefsAux fuel rest

/-- `_ILLEGAL_XML_CHARS.sub('', raw)`: left-to-right removal of the
non-overlapping matches of `&#([0-8]|1[0-1]|1[4-9]|2[0-9]|3[01]);`
(a match may only start at `&`; on failure the scan advances one
character, as `re.sub` does). -/
def subIllegalRefs (l : List Char) : List Char :=
  subIllegalRefsAux l.length l

/-- Characters matched by `_ILLEGAL_RAW_CHARS`, i.e.
`[\x00-\x08\x0b\x0c\x0e-\x1f]`. -/
def illegalRawChar (c : Char) : Bool :=
  c.toNat ≤ 0x08 || c.toNat = 0x0b || c.toNat = 0x0c ||
  (0x0e ≤ c.toNat && c.toNat ≤ 0x1f)

/-- `_ILLEGAL_RAW_CHARS.sub('', raw)`: drop every illegal raw control
character (each match is a single character, so the scan is a filter). -/
def subIllegalRaw (l : List Char) : List Char :=
  l.filter (fun c => !illegalRawChar c)

/-- `_clean_xml(raw)`: first strip illegal numeric character references,
then strip illegal raw control characters. -/
def clean_xml (raw : String) : String :=
  ⟨subIllegalRaw (subIllegalRefs raw.data)⟩

/-! ## Snapshot store (`snapshot.py`) -/

/-- A persisted snapshot: the formatted data and the time it was saved
(seconds; `datetime` instants are modelled as seconds on a global
clock).  The redundant `timestamp_human` field is derived from
`saved_at` and never read back, so it is not modelled separately. -/
structure Snapshot where
  data : String
  saved_at : Nat

/-- The snapshot directory: at most one snapshot per key. -/
def Store : Type := String → Option Snapshot

/-- `snapshot.save(key, data)` at time `now`. -/
def Store.save (store : Store) (key : String) (data : String) (now : Nat) : Store :=
  fun k => if k = key then some ⟨data, now⟩ else store k

/-- `snapshot.load(key)`. -/
def Store.load (store : Store) (key : String) : Option Snapshot :=
  store key

/-- `snapshot.age_str(key)` evaluated at time `now` (snapshot.py lines
40-57).  `int(diff.total_seconds() / 60)` truncates toward zero; with a
clock that never runs backwards this is natural-number division. -/
def age_str (store : Store) (now : Nat) (key : String) : String :=
  match store.load key with
  | none => "no cached data"
  | some snap =>
    let minutes := (now - snap.saved_at) / 60
    if minutes < 1 then "just now"
    else if minutes < 60 then toString minutes ++ " min ago"
    else
      let hours := minutes / 60
      if hours < 24 then toString hours ++ "h ago"
      else toString (hours / 24) ++ " days ago"

/-! ## Live-or-cache gate (`_live_or_cache`, tally_mcp.py lines 32-72) -/

/-- Result of one `_live_or_cache` call: the updated snapshot store, the
new value of the `_tally_is_alive` flag, and the returned string. -/
structure LCResult where
  store : Store
  alive : Bool
  result : String

/-- The horizontal rule printed inside the staleness banner. -/
def bannerRule : String :=
  "─────────────────────────────"

/-- The staleness banner prefixed to cached data. -/
def offlineBanner (age : String) (data : String) : String :=
  "⚠️ Tally is offline. Showing cached data from " ++ age ++ ":\n" ++
  bannerRule ++ "\n" ++ data

/-- The terminal message when no snapshot exists. -/
def noCacheMsg : String :=
  "❌ Tally is offline and no cached data available for this query."

/-- The shared `except` branch of `_live_or_cache`: fall back to the
snapshot store. -/
def lcFallback (store : Store) (now : Nat) (key : String) : LCResult :=
  match store.load key with
  | some cached => ⟨store, false, offlineBanner (age_str store now key) cached.data⟩
  | none => ⟨store, false, noCacheMsg⟩

/-- `_live_or_cache(cache_key, fetch_fn, format_fn)` at time `now`.
`fetch` models `fetch_fn()` (`.error` = the call raised) and `format`
models `format_fn(raw)` (`.error` = parsing/formatting raised). -/
def live_or_cache (store : Store) (now : Nat) (key : String)
    (fetch : Except String String) (format : String → Except String String) : LCResult :=
  match fetch with
  | .error _ => lcFallback store now key
  | .ok raw =>
    if strContains raw "<ERROR>" then
      lcFallback store now key
    else
      match format raw with
      | .error _ => lcFallback store now key
      | .ok result => ⟨store.save key result now, true, result⟩

/-! ## Ledger parser (`_parse_ledgers`, tally_mcp.py lines 179-199) -/

/-- A parsed ledger record: `{"name": ..., "group": ..., "balance": ...}`. -/
structure Ledger where
  name : String
  group : String
  balance : Rat
deriving DecidableEq, Repr

/-- Is an `Except` in the error state? -/
def isErr {ε α : Type} : Except ε α → Bool
  | .error _ => true
  | .ok _ => false

/-- The `group` field: `parent_el.text.strip()` when the `PARENT` child
exists with truthy text, else `""`. -/
def ledgerGroup (el : XElem) : String :=
  match el.find "PARENT" with
  | some p =>
    match p.text with
    | some t => if t ≠ "" then pyStrip t else ""
    | none => ""
  | none => ""

/-- The `balance` field:
`float(closing_el.text.strip()) if closing_el is not None and
closing_el.text and closing_el.text.strip() else 0.0`.
The `float(...)` call is unguarded in the source, so an unparsable
non-blank text raises `ValueError`, modelled by `.error`. -/
def ledgerBalance (el : XElem) : Except String Rat :=
  match el.find "CLOSINGBALANCE" with
  | some c =>
    match c.text with
    | some t =>
      if t ≠ "" && pyStrip t ≠ "" then
        match pyFloat? (pyStrip t) with
        | some b => .ok b
        | none => .error ("could not convert string to float: " ++ pyStrip t)
      else .ok 0
    | none => .ok 0
  | none => .ok 0

/-- Body of the `for el in root.iter("LEDGER")` loop. -/
def parseLedgerList : List XElem → Except String (List Ledger)
  | [] => .ok []
  | el :: rest =>
    match el.get "NAME" with
    | none => parseLedgerList rest
    | some name =>
      if name = "" then parseLedgerList rest
      else
        match ledgerBalance el with
        | .error e => .error e
        | .ok b => (parseLedgerList rest).map (fun ls => ⟨name, ledgerGroup el, b⟩ :: ls)

/-- `_parse_ledgers(raw)` on the parsed XML tree. -/
def parse_ledgers (root : XElem) : Except String (List Ledger) :=
  parseLedgerList (root.iterTag "LEDGER")

/-! ## Display-report parser (`_parse_display_report`, lines 220-260) -/

/-- A report row: trial balance rows carry `debit`/`credit`, P&L and
balance-sheet rows carry a single `amount`. -/
inductive ReportRow where
  | tb (name debit credit : String)
  | amt (name amount : String)
deriving DecidableEq, Repr

/-- The name of a report row. -/
def ReportRow.name : ReportRow → String
  | .tb n _ _ => n
  | .amt n _ => n

/-- `els[i].text.strip() if i < len(els) and els[i].text and
els[i].text.strip() else dflt`: the guarded positional amount lookup
shared by all three report branches. -/
def reportAmtAt (els : List XElem) (i : Nat) (dflt : String) : String :=
  match els[i]? with
  | some e =>
    match e.text with
    | some t => if t ≠ "" && pyStrip t ≠ "" then pyStrip t else dflt
    | none => dflt
  | none => dflt

/-- `[el.text for el in root.iter("DSPDISPNAME") if el.text]`. -/
def displayNames (root : XElem) : List String :=
  (root.iterTag "DSPDISPNAME").filterMap (fun e =>
    match e.text with
    | some t => if t ≠ "" then some t else none
    | none => none)

/-- `_parse_display_report(raw, amount_tag)` on the parsed XML tree. -/
def parse_display_report (root : XElem) (amount_tag : String) : List ReportRow :=
  let names := displayNames root
  if amount_tag = "trial_balance" then
    let dr_els := root.iterTag "DSPCLDRAMTA"
    let cr_els := root.iterTag "DSPCLCRAMTA"
    names.enum.map (fun p => .tb p.2 (reportAmtAt dr_els p.1 "") (reportAmtAt cr_els p.1 ""))
  else if amount_tag = "pnl" then
    let main_els := root.iterTag "BSMAINAMT"
    let sub_els := root.iterTag "PLSUBAMT"
    names.enum.map (fun p =>
      let main := reportAmtAt main_els p.1 ""
      let sub := reportAmtAt sub_els p.1 ""
      .amt p.2 (if main ≠ "" then main else if sub ≠ "" then sub else "0"))
  else if amount_tag = "balance_sheet" then
    let main_els := root.iterTag "BSMAINAMT"
    names.enum.map (fun p => .amt p.2 (reportAmtAt main_els p.1 "0"))
  else []

/-! ## Voucher amount resolver (`_extract_voucher_amount`, lines 296-342) -/

/-- Steps 1 and 2 of the resolver: scan the ledger-entry blocks for the
first entry flagged `ISPARTYLEDGER = Yes` whose `AMOUNT` text is
non-empty and parses; unparsable or missing amounts are skipped. -/
def partyAmountFirst : List XElem → Option Rat
  | [] => none
  | e :: rest =>
    if e.findtext "ISPARTYLEDGER" "No" = "Yes" then
      if e.findtext "AMOUNT" "" ≠ "" then
        match pyFloat? (e.findtext "AMOUNT" "") with
        | some x => some (ratAbs x)
        | none => partyAmountFirst rest
      else partyAmountFirst rest
    else partyAmountFirst rest

/-- Step 3 of the resolver: sum of the absolute values of the parsable
inventory-entry amounts (unparsable or missing amounts contribute 0). -/
def invTotal : List XElem → Rat
  | [] => 0
  | e :: rest =>
    (if e.findtext "AMOUNT" "" ≠ "" then
       match pyFloat? (e.findtext "AMOUNT" "") with
       | some x => ratAbs x
       | none => 0
     else 0) + invTotal rest

/-- Step 4 of the resolver: first `AMOUNT` element anywhere in the
voucher with truthy, non-blank text whose absolute value is strictly
positive. -/
def firstPositiveAmount : List XElem → Option Rat
  | [] => none
  | e :: rest =>
    match e.text with
    | some t =>
      if t ≠ "" && pyStrip t ≠ "" then
        match pyFloat? t with
        | some x => if 0 < ratAbs x then some (ratAbs x) else firstPositiveAmount rest
        | none => firstPositiveAmount rest
      else firstPositiveAmount rest
    | none => firstPositiveAmount rest

/-- `_extract_voucher_amount(voucher_el)`: the prioritized fallback
chain, first success wins, `0.0` when nothing matches. -/
def extract_voucher_amount (v : XElem) : Rat :=
  match partyAmountFirst (v.iterTag "ALLLEDGERENTRIES.LIST") with
  | some a => a
  | none =>
    match partyAmountFirst (v.iterTag "LEDGERENTRIES.LIST") with
    | some a => a
    | none =>
      if 0 < invTotal (v.iterTag "INVENTORYENTRIES.LIST") then
        invTotal (v.iterTag "INVENTORYENTRIES.LIST")
      else
        match firstPositiveAmount (v.iterTag "AMOUNT") with
        | some a => a
        | none => 0

/-! ## Currency formatting and the ledgers tool formatter -/

/-- The number of cents in a non-negative rational `q = num/den`:
`q * 100` rounded to the nearest integer, ties to even (the rounding
applied by Python's fixed-precision string formatting), computed on the
numerator and denominator directly. -/
def roundCentsHalfEven (q : Rat) : Nat :=
  let n := q.num.toNat * 100
  let d := q.den
  let whole := n / d
  let rem := n % d
  if 2 * rem < d then whole
  else if d < 2 * rem then whole + 1
  else if whole % 2 = 0 then whole else whole + 1

/-- Insert a comma after every third character (input reversed digits). -/
def group3rev : List Char → List Char
  | a :: b :: c :: rest =>
    if rest = [] then [a, b, c] else a :: b :: c :: ',' :: group3rev rest
  | l => l

/-- Decimal digits of a natural number with `,` thousand separators, as
produced by Python's `{:,}` format. -/
def commaGrouped (n : Nat) : String :=
  ⟨(group3rev (toString n).data.reverse).reverse⟩

/-- Two-digit rendering of a value below 100. -/
def twoDigits (n : Nat) : String :=
  if n < 10 then "0" ++ toString n else toString n

/-- `_fmt_currency(value)`: `f"₹{abs(value):,.2f}"` (tally_mcp.py lines
349-351; despite the "Indian currency" comment, `{:,}` groups digits in
threes). -/
def fmt_currency (value : Rat) : String :=
  let cents := roundCentsHalfEven (ratAbs value)
  "₹" ++ commaGrouped (cents / 100) ++ "." ++ twoDigits (cents % 100)

/-- The `format` closure of the `get_all_ledgers` tool (lines 365-373),
applied to the parsed ledger list. -/
def get_all_ledgers_lines (ledgers : List Ledger) : String :=
  if ledgers = [] then "No ledgers found."
  else
    String.intercalate "\n" (ledgers.map (fun l =>
      let bal_str := if l.balance ≠ 0 then fmt_currency l.balance else "0"
      l.name ++ " | Group: " ++ l.group ++ " | Balance: " ++ bal_str))

/-- The `format` closure of `get_all_ledgers` including the parse step
(an `.error` models a raised exception falling through to the gate). -/
def get_all_ledgers_format (root : XElem) : Except String String :=
  (parse_ledgers root).map get_all_ledgers_lines

/-! ## Tool-call parser (`parse_tool_call`, orchestrator.py lines 158-172) -/

/-- Match a literal character list at the front, returning the
remainder. -/
def dropLit : List Char → List Char → Option (List Char)
  | [], l => some l
  | _ :: _, [] => none
  | p :: ps, c :: cs => if c = p then dropLit ps cs else none

/-- Attempt the regex `TOOL_CALL:\s*(\w+)\((.*?)\)` (DOTALL) anchored at
the current position; on success return the captured name and argument
text.  The lazy `(.*?)\)` stops at the first `)`; greedy `\s*`/`\w+`
cannot backtrack usefully because `\s`, `\w`, `(` are pairwise
disjoint. -/
def tryDirective (l : List Char) : Option (String × String) :=
  match dropLit "TOOL_CALL:".data l with
  | none => none
  | some rest =>
    let rest2 := rest.dropWhile isPySpace
    let name := rest2.takeWhile isWordChar
    let rest3 := rest2.dropWhile isWordChar
    if name = [] then none
    else
      match rest3 with
      | '(' :: rest4 =>
        (match rest4.dropWhile (fun c => c ≠ ')') with
         | ')' :: _ => some (⟨name⟩, ⟨rest4.takeWhile (fun c => c ≠ ')')⟩)
         | _ => none)
      | _ => none

/-- `re.search`: try the directive at each position, leftmost match
wins. -/
def findDirective : List Char → Option (String × String)
  | [] => none
  | c :: rest =>
    match tryDirective (c :: rest) with
    | some r => some r
    | none => findDirective rest

/-- Attempt the regex `(\w+)\s*=\s*"([^"]*)"` anchored at the current
position; on success return the pair and the remainder. -/
def tryArg (l : List Char) : Option ((String × String) × List Char) :=
  if l.takeWhile isWordChar = [] then none
  else
    match (l.dropWhile isWordChar).dropWhile isPySpace with
    | '=' :: r3 =>
      (match r3.dropWhile isPySpace with
       | '"' :: r5 =>
         (match r5.dropWhile (fun c => c ≠ '"') with
          | '"' :: r7 => some ((⟨l.takeWhile isWordChar⟩, ⟨r5.takeWhile (fun c => c ≠ '"')⟩), r7)
          | _ => none)
       | _ => none)
    | _ => none

/-- `re.finditer` of the argument regex, driven by a fuel counter (each
match consumes at least one character, so fuel of at least the list's
length yields every match). -/
def findArgsAux : Nat → List Char → List (String × String)
  | 0, _ => []
  | _ + 1, [] => []
  | fuel + 1, c :: rest =>
    match tryArg (c :: rest) with
    | some (p, r) => p :: findArgsAux fuel r
    | none => findArgsAux fuel rest

/-- All matches of `(\w+)\s*=\s*"([^"]*)"`, left to right,
non-overlapping. -/
def findArgs (l : List Char) : List (String × String) :=
  findArgsAux l.length l

/-- `kwargs[name] = value` on a Python dict modelled as an
insertion-ordered association list: an existing key is updated in
place, a new key is appended. -/
def dictInsert : List (String × String) → String → String → List (String × String)
  | [], k, v => [(k, v)]
  | (k₀, v₀) :: rest, k, v =>
    if k₀ = k then (k₀, v) :: rest else (k₀, v₀) :: dictInsert rest k v

/-- The `kwargs` dict built from the argument matches. -/
def buildKwargs (ps : List (String × String)) : List (String × String) :=
  ps.foldl (fun d p => dictInsert d p.1 p.2) []

/-- `parse_tool_call(text)`: `none` models the `(None, None)` "no call"
result. -/
def parse_tool_call (text : String) : Option (String × List (String × String)) :=
  match findDirective text.data with
  | none => none
  | some (tool_name, rawArgs) =>
    some (tool_name,
      if pyStrip rawArgs = "" then []
      else buildKwargs (findArgs (pyStrip rawArgs).data))

/-! ## Orchestration loop (`handle_query`, orchestrator.py lines 179-279) -/

/-- One conversation turn. -/
structure Message where
  role : String
  content : String
deriving DecidableEq, Repr

/-- The environment of one query: the model call after its retry policy
(`.error` = retries exhausted) and tool invocation through the MCP
client (`.error` = the call raised). -/
structure OrchEnv where
  llm : List Message → Except String String
  tool : String → List (String × String) → Except String String

/-- Outcome of `handle_query`: the returned answer, the stored per-user
history after the call, the tool invocations performed (in order), and
whether the query ended by a final answer (as opposed to the overloaded
or round-budget messages, which leave the history untouched). -/
structure QueryResult where
  answer : String
  hist : List Message
  toolCalls : List (String × List (String × String))
  final : Bool
deriving Repr

/-- The fixed message after the round budget is exhausted. -/
def budgetMsg : String :=
  "Could not complete analysis. Please try a simpler question."

/-- The fixed message after the model-call retries are exhausted. -/
def overloadedMsg : String :=
  "⚠️ The AI brain is currently overloaded. Please try again in a minute."

/-- `history.append(...); if len > 20: history = history[-20:]`. -/
def pyTrim (h : List Message) : List Message :=
  if h.length > 20 then h.drop (h.length - 20) else h

/-- The `for round_num in range(max_rounds)` loop: `fuel` counts the
remaining rounds; falling out of the loop returns the budget message. -/
def toolLoop (env : OrchEnv) (query : String) (hist : List Message) :
    List Message → Nat → QueryResult
  | _, 0 => ⟨budgetMsg, hist, [], false⟩
  | msgs, fuel + 1 =>
    match env.llm msgs with
    | .error _ => ⟨overloadedMsg, hist, [], false⟩
    | .ok resp =>
      match parse_tool_call resp with
      | none =>
        ⟨resp, pyTrim (hist ++ [⟨"user", query⟩, ⟨"assistant", resp⟩]), [], true⟩
      | some (tool_name, kwargs) =>
        let tool_result :=
          match env.tool tool_name kwargs with
          | .ok r => r
          | .error e => "Tool error: " ++ e
        let msgs2 := msgs ++
          [⟨"assistant", resp⟩,
           ⟨"user", "TOOL_RESULT for " ++ tool_name ++ ":\n" ++ tool_result⟩]
        let r := toolLoop env query hist msgs2 fuel
        ⟨r.answer, r.hist, (tool_name, kwargs) :: r.toolCalls, r.final⟩

/-- `handle_query(mcp_client, user_id, query, conversation_history)`,
specialized to one user: takes that user's current stored history (the
empty list when the user is new) and returns the outcome.  The system
prompt is a parameter (its construction from the tool list, date and
RAG context has no bearing on the loop). -/
def handle_query (env : OrchEnv) (system_prompt query : String)
    (hist : List Message) : QueryResult :=
  toolLoop env query hist (⟨"system", system_prompt⟩ :: hist ++ [⟨"user", query⟩]) 5

/-! ## Derived predicates used in the claim statements -/

/-- A `LEDGER` element on which the unguarded `float(...)` of
`_parse_ledgers` raises: the closing-balance text is truthy and
non-blank yet unparsable. -/
def ledgerBadBalance (el : XElem) : Bool :=
  match el.find "CLOSINGBALANCE" with
  | some c =>
    (match c.text with
     | some t => t ≠ "" && pyStrip t ≠ "" && (pyFloat? (pyStrip t)).isNone
     | none => false)
  | none => false

/-- A `LEDGER` element that is processed (truthy `NAME`) and whose
balance parse raises. -/
def ledgerBad (el : XElem) : Bool :=
  (match el.get "NAME" with
   | some n => n ≠ ""
   | none => false) && ledgerBadBalance el

/-- The text contains a directive of the shape `TOOL_CALL: name(...)`:
the literal `TOOL_CALL:`, optional whitespace, a non-empty word-character
name, `(`, any argument text, `)`. -/
def DirectiveShape (l : List Char) : Prop :=
  ∃ pre ws name body post : List Char,
    l = pre ++ "TOOL_CALL:".data ++ ws ++ name ++ '(' :: body ++ ')' :: post ∧
    (∀ c ∈ ws, isPySpace c = true) ∧
    name ≠ [] ∧ (∀ c ∈ name, isWordChar c = true)

/-- One argument written in the directive syntax: `name="value"`. -/
def render1 (p : String × String) : String :=
  p.1 ++ "=\"" ++ p.2 ++ "\""

/-- The argument list written in the directive syntax, separated by
`, `. -/
def renderArgs : List (String × String) → String
  | [] => ""
  | [p] => render1 p
  | p :: q :: rest => render1 p ++ ", " ++ renderArgs (q :: rest)

/-- A full tool-call directive in the documented syntax. -/
def renderDirective (tool : String) (ps : List (String × String)) : String :=
  "TOOL_CALL: " ++ tool ++ "(" ++ renderArgs ps ++ ")"

/-- Well-formed written arguments: non-empty word-character names,
values free of the two delimiters the scanner stops at (`"` closes a
value, `)` closes the argument text), and pairwise-distinct names. -/
def ValidArgs (ps : List (String × String)) : Prop :=
  (∀ p ∈ ps, p.1 ≠ "" ∧ (∀ c ∈ p.1.data, isWordChar c = true) ∧
    (∀ c ∈ p.2.data, c ≠ '"' ∧ c ≠ ')')) ∧
  (ps.map Prod.fst).Nodup

/-! ## Concrete fixtures for witnesses and counterexamples -/

/-- A `Collection:Ledger` payload with the scenario entry
`<LEDGER NAME="Cash"><PARENT>Cash-in-Hand</PARENT>
<CLOSINGBALANCE>-300.00</CLOSINGBALANCE></LEDGER>`. -/
def c9Root : XElem :=
  xel "ENVELOPE" [] none
    [xel "LEDGER" [("NAME", "Cash")] none
      [xel "PARENT" [] (some "Cash-in-Hand") [],
       xel "CLOSINGBALANCE" [] (some "-300.00") []]]

/-- A ledger payload whose closing-balance text `abc` is non-empty but
unparsable. -/
def c2BadRoot : XElem :=
  xel "ENVELOPE" [] none
    [xel "LEDGER" [("NAME", "X")] none
      [xel "CLOSINGBALANCE" [] (some "abc") []]]

/-- A party-flagged ledger entry whose amount text is unparsable. -/
def c2SkipEntry : XElem :=
  xel "ALLLEDGERENTRIES.LIST" [] none
    [xel "ISPARTYLEDGER" [] (some "Yes") [],
     xel "AMOUNT" [] (some "xx") []]

/-- A voucher with both a party-flagged all-ledger entry (amount
`-200.00`) and two inventory entries (absolute sum `80.00`). -/
def c3Voucher : XElem :=
  xel "VOUCHER" [("VCHTYPE", "Sales")] none
    [xel "ALLLEDGERENTRIES.LIST" [] none
      [xel "LEDGERNAME" [] (some "Debtor_2") [],
       xel "ISPARTYLEDGER" [] (some "Yes") [],
       xel "AMOUNT" [] (some "-200.00") []],
     xel "INVENTORYENTRIES.LIST" [] none [xel "AMOUNT" [] (some "-50.00") []],
     xel "INVENTORYENTRIES.LIST" [] none [xel "AMOUNT" [] (some "30.00") []]]

/-- A snapshot store holding one snapshot, saved at time 0. -/
def c1Store : Store :=
  fun k => if k = "ledgers" then some ⟨"CACHED", 0⟩ else none

/-- A report payload with two display names and a single debit-amount
element, so the second row exercises the missing-amount defaults. -/
def c10Root : XElem :=
  xel "ENVELOPE" [] none
    [xel "DSPDISPNAME" [] (some "Capital") [],
     xel "DSPDISPNAME" [] (some "Assets") [],
     xel "DSPCLDRAMTA" [] (some " 100 ") [],
     xel "BSMAINAMT" [] (some "  ") []]

/-- An environment whose model always answers with a tool call. -/
def c4Env : OrchEnv :=
  ⟨fun _ => .ok "TOOL_CALL: get_all_ledgers()", fun _ _ => .ok "ok"⟩

/-- An environment whose model immediately answers without a tool
call. -/
def c6Env : OrchEnv :=
  ⟨fun _ => .ok "the final answer", fun _ _ => .ok "ok"⟩

/-- An environment whose model immediately answers without a tool
call. -/
def c7Env : OrchEnv :=
  ⟨fun _ => .ok "done", fun _ _ => .ok "ok"⟩

/-- A stored history already at the 20-entry cap. -/
def c7Hist : List Message :=
  List.replicate 20 ⟨"user", "old"⟩

/-- Decidable equality of modelled raise-or-return outcomes. -/
instance exceptDecEq {ε α : Type} [DecidableEq ε] [DecidableEq α] :
    DecidableEq (Except ε α)
  | .error e, .error e' =>
    if h : e = e' then .isTrue (by rw [h]) else .isFalse (by intro hc; cases hc; exact h rfl)
  | .error _, .ok _ => .isFalse (by intro hc; cases hc)
  | .ok _, .error _ => .isFalse (by intro hc; cases hc)
  | .ok a, .ok a' =>
    if h : a = a' then .isTrue (by rw [h]) else .isFalse (by intro hc; cases hc; exact h rfl)

/-! ## C5 — sanitizer legality and idempotence -/

/-- C5: the sanitizer misses its own goal on concrete inputs.  The
numeric-reference regex `&#([0-8]|1[0-1]|1[4-9]|2[0-9]|3[01]);` leaves
the illegal reference `&#12;` in the output while removing the legal
newline reference `&#10;` (contradicting the comment above it, which
lists `#x9 | #xA | #xD` as the XML-legal control points), and
sanitization is not idempotent: on `"&#\x011;"` the first pass removes
the raw `\x01` byte, gluing the remaining fragments into a new
reference `&#1;` that only a second pass removes. -/
theorem c5_clean_xml_not_legal_or_idempotent :
    clean_xml "&#12;" = "&#12;" ∧
    clean_xml "&#10;" = "" ∧
    clean_xml (clean_xml "&#\x011;") ≠ clean_xml "&#\x011;" := by
  decide

/-! ## C9 — ledger parse and format scenario -/

/-- C9: the scenario entry `<LEDGER NAME="Cash"><PARENT>Cash-in-Hand
</PARENT><CLOSINGBALANCE>-300.00</CLOSINGBALANCE></LEDGER>` parses to
`{name: "Cash", group: "Cash-in-Hand", balance: -300.0}` and the
`get_all_ledgers` formatter renders it as
`"Cash | Group: Cash-in-Hand | Balance: ₹300.00"` (the negative balance
is displayed as an absolute currency value). -/
theorem c9_ledger_scenario :
    parse_ledgers c9Root = .ok [⟨"Cash", "Cash-in-Hand", -300⟩] ∧
    get_all_ledgers_format c9Root = .ok "Cash | Group: Cash-in-Hand | Balance: ₹300.00" := by
  constructor
  · decide
  · decide

/-! ## C2 — soft numeric parsing -/

/-- Unfolding of the ledger loop on a cons cell. -/
theorem parseLedgerList_cons (el : XElem) (rest : List XElem) :
    parseLedgerList (el :: rest) =
      match el.get "NAME" with
      | none => parseLedgerList rest
      | some name =>
        if name = "" then parseLedgerList rest
        else
          match ledgerBalance el with
          | .error e => .error e
          | .ok b => (parseLedgerList rest).map (fun ls => ⟨name, ledgerGroup el, b⟩ :: ls) :=
  rfl

/-- Unfolding of the party-amount scan on a cons cell. -/
theorem partyAmountFirst_cons (e : XElem) (rest : List XElem) :
    partyAmountFirst (e :: rest) =
      if e.findtext "ISPARTYLEDGER" "No" = "Yes" then
        if e.findtext "AMOUNT" "" ≠ "" then
          match pyFloat? (e.findtext "AMOUNT" "") with
          | some x => some (ratAbs x)
          | none => partyAmountFirst rest
        else partyAmountFirst rest
      else partyAmountFirst rest :=
  rfl

/-- Unfolding of the inventory total on a cons cell. -/
theorem invTotal_cons (e : XElem) (rest : List XElem) :
    invTotal (e :: rest) =
      (if e.findtext "AMOUNT" "" ≠ "" then
         match pyFloat? (e.findtext "AMOUNT" "") with
         | some x => ratAbs x
         | none => 0
       else 0) + invTotal rest :=
  rfl

/-- Unfolding of the step-4 scan on a cons cell. -/
theorem firstPositiveAmount_cons (e : XElem) (rest : List XElem) :
    firstPositiveAmount (e :: rest) =
      match e.text with
      | some t =>
        if t ≠ "" && pyStrip t ≠ "" then
          match pyFloat? t with
          | some x => if 0 < ratAbs x then some (ratAbs x) else firstPositiveAmount rest
          | none => firstPositiveAmount rest
        else firstPositiveAmount rest
      | none => firstPositiveAmount rest :=
  rfl

/-- `Except.map` preserves the error state. -/
theorem isErr_map {ε α β : Type} (f : α → β) (x : Except ε α) :
    isErr (x.map f) = isErr x := by
  cases x <;> rfl

/-- `ledgerBalance` raises exactly on a bad closing-balance text. -/
theorem ledgerBalance_isErr (el : XElem) :
    isErr (ledgerBalance el) = ledgerBadBalance el := by
  rcases hf : el.find "CLOSINGBALANCE" with _ | c
  · simp [ledgerBalance, ledgerBadBalance, hf, isErr]
  · rcases ht : c.text with _ | t
    · simp [ledgerBalance, ledgerBadBalance, hf, ht, isErr]
    · by_cases h1 : t = ""
      · simp [ledgerBalance, ledgerBadBalance, hf, ht, h1, isErr]
      · by_cases h2 : pyStrip t = ""
        · simp [ledgerBalance, ledgerBadBalance, hf, ht, h1, h2, isErr]
        · rcases h3 : pyFloat? (pyStrip t) with _ | b <;>
            simp [ledgerBalance, ledgerBadBalance, hf, ht, h1, h2, h3, isErr]

/-- The ledger loop raises exactly when some processed ledger element
has a bad balance. -/
theorem parseLedgerList_isErr : ∀ l : List XElem,
    isErr (parseLedgerList l) = l.any ledgerBad
  | [] => rfl
  | el :: rest => by
    rcases hn : el.get "NAME" with _ | name
    · simp [parseLedgerList_cons, hn, ledgerBad, parseLedgerList_isErr rest]
    · by_cases hne : name = ""
      · simp [parseLedgerList_cons, hn, hne, ledgerBad, parseLedgerList_isErr rest]
      · rcases hb : ledgerBalance el with e | b
        · have hbb : ledgerBadBalance el = true := by
            rw [← ledgerBalance_isErr, hb]; rfl
          simp [parseLedgerList_cons, hn, hne, hb, ledgerBad, hbb, isErr]
        · have hbb : ledgerBadBalance el = false := by
            rw [← ledgerBalance_isErr, hb]; rfl
          simp [parseLedgerList_cons, hn, hne, hb, ledgerBad, hbb,
            isErr_map, parseLedgerList_isErr rest]

/-- C2 (amended): unparsable amount text is treated as absent by every
step of `_extract_voucher_amount` — a party-flagged entry, an inventory
entry or a step-4 amount element with unparsable text is skipped, never
an error — but `_parse_ledgers` applies `float()` unguarded, so it
raises exactly when some `LEDGER` element with a truthy `NAME` has a
closing-balance text that is truthy, non-blank and unparsable. -/
theorem c2_fail_soft_amended (root : XElem) :
    (isErr (parse_ledgers root) = (root.iterTag "LEDGER").any ledgerBad) ∧
    (∀ e rest, e.findtext "ISPARTYLEDGER" "No" = "Yes" →
        e.findtext "AMOUNT" "" ≠ "" → pyFloat? (e.findtext "AMOUNT" "") = none →
        partyAmountFirst (e :: rest) = partyAmountFirst rest) ∧
    (∀ e rest, pyFloat? (e.findtext "AMOUNT" "") = none →
        invTotal (e :: rest) = invTotal rest) ∧
    (∀ e rest t, e.text = some t → pyFloat? t = none →
        firstPositiveAmount (e :: rest) = firstPositiveAmount rest) := by
  refine ⟨parseLedgerList_isErr _, ?_, ?_, ?_⟩
  · intro e rest hflag hne hbad
    rw [partyAmountFirst_cons, if_pos hflag, if_pos hne, hbad]
  · intro e rest hbad
    rw [invTotal_cons]
    by_cases hne : e.findtext "AMOUNT" "" = ""
    · rw [if_neg (not_not_intro hne), zero_add]
    · rw [if_pos hne, hbad, zero_add]
  · intro e rest t htext hbad
    rw [firstPositiveAmount_cons, htext]
    show (if (t ≠ "" && pyStrip t ≠ "") = true then
            match pyFloat? t with
            | some x => if 0 < ratAbs x then some (ratAbs x) else firstPositiveAmount rest
            | none => firstPositiveAmount rest
          else firstPositiveAmount rest) = firstPositiveAmount rest
    by_cases hc : (t ≠ "" && pyStrip t ≠ "") = true
    · rw [if_pos hc, hbad]
    · rw [if_neg hc]

/-- Witness for C2 (amended): a concrete party-flagged entry whose
amount text `xx` does not parse is skipped by the resolver. -/
theorem c2_fail_soft_amended_witness :
    partyAmountFirst [c2SkipEntry] = partyAmountFirst [] :=
  (c2_fail_soft_amended c2BadRoot).2.1 c2SkipEntry []
    (by decide) (by decide) (by decide)

/-- C2 (counterexample): on a ledger whose closing-balance text is the
unparsable `abc`, `_parse_ledgers` raises `ValueError` instead of
treating the text as absent. -/
theorem c2_parse_ledgers_raises :
    parse_ledgers c2BadRoot = .error "could not convert string to float: abc" := by
  decide

/-! ## C3 — voucher amount fallback chain -/

/-- `ratAbs` is non-negative. -/
theorem ratAbs_nonneg (q : Rat) : 0 ≤ ratAbs q := by
  unfold ratAbs
  split
  · linarith
  · linarith

/-- A party-ledger amount is an absolute value. -/
theorem partyAmountFirst_nonneg : ∀ (l : List XElem) (a : Rat),
    partyAmountFirst l = some a → 0 ≤ a
  | [], a => by intro h; simp [partyAmountFirst] at h
  | e :: rest, a => by
    intro h
    rw [partyAmountFirst_cons] at h
    split at h
    · split at h
      · split at h
        · cases h; exact ratAbs_nonneg _
        · exact partyAmountFirst_nonneg rest a h
      · exact partyAmountFirst_nonneg rest a h
    · exact partyAmountFirst_nonneg rest a h

/-- The inventory total is non-negative. -/
theorem invTotal_nonneg : ∀ l : List XElem, 0 ≤ invTotal l
  | [] => le_refl 0
  | e :: rest => by
    rw [invTotal_cons]
    refine add_nonneg ?_ (invTotal_nonneg rest)
    split
    · split
      · exact ratAbs_nonneg _
      · exact le_refl 0
    · exact le_refl 0

/-- A step-4 amount is an absolute value. -/
theorem firstPositiveAmount_nonneg : ∀ (l : List XElem) (a : Rat),
    firstPositiveAmount l = some a → 0 ≤ a
  | [], a => by intro h; simp [firstPositiveAmount] at h
  | e :: rest, a => by
    intro h
    rw [firstPositiveAmount_cons] at h
    split at h
    · split at h
      · split at h
        · split at h
          · cases h; exact ratAbs_nonneg _
          · exact firstPositiveAmount_nonneg rest a h
        · exact firstPositiveAmount_nonneg rest a h
      · exact firstPositiveAmount_nonneg rest a h
    · exact firstPositiveAmount_nonneg rest a h

/-- C3: `_extract_voucher_amount` evaluates the prioritized fallback
chain in order with first success winning — a party-flagged
all-ledger-entries amount, then a party-flagged (older-format)
ledger-entries amount, then the inventory total when positive, then the
first strictly positive amount anywhere, and zero when nothing matches
— and every returned amount is non-negative.  In particular, a voucher
with both a flagged party-ledger entry and inventory entries yields the
party-ledger amount (first conjunct). -/
theorem c3_voucher_amount_chain (v : XElem) :
    (∀ a, partyAmountFirst (v.iterTag "ALLLEDGERENTRIES.LIST") = some a →
        extract_voucher_amount v = a) ∧
    (partyAmountFirst (v.iterTag "ALLLEDGERENTRIES.LIST") = none →
      ∀ a, partyAmountFirst (v.iterTag "LEDGERENTRIES.LIST") = some a →
        extract_voucher_amount v = a) ∧
    (partyAmountFirst (v.iterTag "ALLLEDGERENTRIES.LIST") = none →
      partyAmountFirst (v.iterTag "LEDGERENTRIES.LIST") = none →
      0 < invTotal (v.iterTag "INVENTORYENTRIES.LIST") →
      extract_voucher_amount v = invTotal (v.iterTag "INVENTORYENTRIES.LIST")) ∧
    (partyAmountFirst (v.iterTag "ALLLEDGERENTRIES.LIST") = none →
      partyAmountFirst (v.iterTag "LEDGERENTRIES.LIST") = none →
      ¬ 0 < invTotal (v.iterTag "INVENTORYENTRIES.LIST") →
      ∀ a, firstPositiveAmount (v.iterTag "AMOUNT") = some a →
        extract_voucher_amount v = a) ∧
    (partyAmountFirst (v.iterTag "ALLLEDGERENTRIES.LIST") = none →
      partyAmountFirst (v.iterTag "LEDGERENTRIES.LIST") = none →
      ¬ 0 < invTotal (v.iterTag "INVENTORYENTRIES.LIST") →
      firstPositiveAmount (v.iterTag "AMOUNT") = none →
      extract_voucher_amount v = 0) ∧
    0 ≤ extract_voucher_amount v := by
  refine ⟨?_, ?_, ?_, ?_, ?_, ?_⟩
  · intro a h1
    unfold extract_voucher_amount
    rw [h1]
  · intro h1 a h2
    unfold extract_voucher_amount
    rw [h1, h2]
  · intro h1 h2 h3
    unfold extract_voucher_amount
    rw [h1, h2, if_pos h3]
  · intro h1 h2 h3 a h4
    unfold extract_voucher_amount
    rw [h1, h2, if_neg h3, h4]
  · intro h1 h2 h3 h4
    unfold extract_voucher_amount
    rw [h1, h2, if_neg h3, h4]
  · unfold extract_voucher_amount
    rcases h1 : partyAmountFirst (v.iterTag "ALLLEDGERENTRIES.LIST") with _ | a
    · rcases h2 : partyAmountFirst (v.iterTag "LEDGERENTRIES.LIST") with _ | a
      · by_cases h3 : 0 < invTotal (v.iterTag "INVENTORYENTRIES.LIST")
        · rw [if_pos h3]
          exact invTotal_nonneg _
        · rw [if_neg h3]
          rcases h4 : firstPositiveAmount (v.iterTag "AMOUNT") with _ | a
          · exact le_refl 0
          · exact firstPositiveAmount_nonneg _ a h4
      · exact partyAmountFirst_nonneg _ a h2
    · exact partyAmountFirst_nonneg _ a h1

/-- Witness for C3: the concrete voucher with both a flagged
party-ledger entry (amount `-200.00`) and inventory entries resolves to
the absolute party-ledger amount `200`, not the inventory sum. -/
theorem c3_voucher_amount_chain_witness :
    extract_voucher_amount c3Voucher = 200 :=
  (c3_voucher_amount_chain c3Voucher).1 200 (by decide)

/-! ## C1 — live-or-cache fallback -/

/-- C1: whenever the fetch raises, or the payload carries the in-band
`<ERROR>` marker, or formatting raises, `_live_or_cache` returns (it
cannot raise, being a total function): the prior snapshot's data
prefixed with the staleness banner containing the snapshot's age when a
snapshot exists for the key, and the fixed no-cached-data message when
none does. -/
theorem c1_live_or_cache_fallback (store : Store) (now : Nat) (key : String)
    (fetch : Except String String) (format : String → Except String String)
    (hfail : (∃ e, fetch = .error e) ∨
      (∃ raw, fetch = .ok raw ∧ strContains raw "<ERROR>" = true) ∨
      (∃ raw, fetch = .ok raw ∧ strContains raw "<ERROR>" = false ∧
        ∃ e, format raw = .error e)) :
    (∃ c, store.load key = some c ∧
      (live_or_cache store now key fetch format).result =
        offlineBanner (age_str store now key) c.data) ∨
    (store.load key = none ∧
      (live_or_cache store now key fetch format).result = noCacheMsg) := by
  have hfb : live_or_cache store now key fetch format = lcFallback store now key := by
    rcases hfail with ⟨e, he⟩ | ⟨raw, hraw, herr⟩ | ⟨raw, hraw, herr, e, hfmt⟩
    · rw [he]; rfl
    · rw [hraw]
      simp [live_or_cache, herr]
    · rw [hraw]
      simp [live_or_cache, herr, hfmt]
  rw [hfb]
  unfold lcFallback
  rcases hc : store.load key with _ | cached
  · exact .inr ⟨rfl, rfl⟩
  · exact .inl ⟨cached, rfl, rfl⟩

/-- Witness for C1: with a snapshot saved at time 0 under `"ledgers"`
and a raising fetch at time 5400, the gate serves the cached data under
a staleness banner. -/
theorem c1_live_or_cache_fallback_witness :
    (∃ c, (c1Store).load "ledgers" = some c ∧
      (live_or_cache c1Store 5400 "ledgers" (.error "boom") (fun r => .ok r)).result =
        offlineBanner (age_str c1Store 5400 "ledgers") c.data) ∨
    ((c1Store).load "ledgers" = none ∧
      (live_or_cache c1Store 5400 "ledgers" (.error "boom") (fun r => .ok r)).result =
        noCacheMsg) :=
  c1_live_or_cache_fallback c1Store 5400 "ledgers" (.error "boom") (fun r => .ok r)
    (.inl ⟨"boom", rfl⟩)

/-! ## C10 — display-report parser shape -/

/-- Trial-balance branch of `_parse_display_report`. -/
theorem parse_display_report_tb (root : XElem) :
    parse_display_report root "trial_balance" =
      (displayNames root).enum.map (fun p =>
        .tb p.2 (reportAmtAt (root.iterTag "DSPCLDRAMTA") p.1 "")
          (reportAmtAt (root.iterTag "DSPCLCRAMTA") p.1 "")) :=
  rfl

/-- P&L branch of `_parse_display_report`. -/
theorem parse_display_report_pnl (root : XElem) :
    parse_display_report root "pnl" =
      (displayNames root).enum.map (fun p =>
        .amt p.2
          (if reportAmtAt (root.iterTag "BSMAINAMT") p.1 "" ≠ "" then
            reportAmtAt (root.iterTag "BSMAINAMT") p.1 ""
          else if reportAmtAt (root.iterTag "PLSUBAMT") p.1 "" ≠ "" then
            reportAmtAt (root.iterTag "PLSUBAMT") p.1 ""
          else "0")) :=
  rfl

/-- Balance-sheet branch of `_parse_display_report`. -/
theorem parse_display_report_bs (root : XElem) :
    parse_display_report root "balance_sheet" =
      (displayNames root).enum.map (fun p =>
        .amt p.2 (reportAmtAt (root.iterTag "BSMAINAMT") p.1 "0")) :=
  rfl

/-- Positional lookup in an enumerated map. -/
theorem enumMap_getElem {α β : Type} (l : List α) (f : Nat × α → β) (i : Nat) (n : α)
    (h : l[i]? = some n) : (l.enum.map f)[i]? = some (f (i, n)) := by
  rw [List.getElem?_map, List.enum_eq_enumFrom, List.getElem?_enumFrom, h]
  simp

/-- Length of an enumerated map. -/
theorem enumMap_length {α β : Type} (l : List α) (f : Nat × α → β) :
    (l.enum.map f).length = l.length := by
  rw [List.length_map, List.enum_eq_enumFrom, List.enumFrom_length]

/-- C10: for each supported report kind, `_parse_display_report` is
total and yields exactly one row per non-empty `DSPDISPNAME`, in
document order, pairing names with amount elements by position; an
amount element that is missing at a row's index, or has no text, or
whitespace-only text, contributes the branch default (`""` for trial
balance and the P&L tags, `"0"` for balance sheet) instead of an
out-of-range indexing error. -/
theorem c10_display_report_rows (root : XElem) :
    (parse_display_report root "trial_balance").length = (displayNames root).length ∧
    (parse_display_report root "pnl").length = (displayNames root).length ∧
    (parse_display_report root "balance_sheet").length = (displayNames root).length ∧
    (∀ (i : Nat) (n : String), (displayNames root)[i]? = some n →
      (parse_display_report root "trial_balance")[i]? =
        some (ReportRow.tb n (reportAmtAt (root.iterTag "DSPCLDRAMTA") i "")
          (reportAmtAt (root.iterTag "DSPCLCRAMTA") i ""))) ∧
    (∀ (i : Nat) (n : String), (displayNames root)[i]? = some n →
      (parse_display_report root "pnl")[i]? =
        some (ReportRow.amt n
          (if reportAmtAt (root.iterTag "BSMAINAMT") i "" ≠ "" then
            reportAmtAt (root.iterTag "BSMAINAMT") i ""
          else if reportAmtAt (root.iterTag "PLSUBAMT") i "" ≠ "" then
            reportAmtAt (root.iterTag "PLSUBAMT") i ""
          else "0"))) ∧
    (∀ (i : Nat) (n : String), (displayNames root)[i]? = some n →
      (parse_display_report root "balance_sheet")[i]? =
        some (ReportRow.amt n (reportAmtAt (root.iterTag "BSMAINAMT") i "0"))) ∧
    (∀ (els : List XElem) (i : Nat) (d : String), els[i]? = none →
      reportAmtAt els i d = d) ∧
    (∀ (els : List XElem) (i : Nat) (d : String) (e : XElem), els[i]? = some e →
      (e.text = none ∨ ∃ t, e.text = some t ∧ pyStrip t = "") →
      reportAmtAt els i d = d) := by
  refine ⟨?_, ?_, ?_, ?_, ?_, ?_, ?_, ?_⟩
  · rw [parse_display_report_tb, enumMap_length]
  · rw [parse_display_report_pnl, enumMap_length]
  · rw [parse_display_report_bs, enumMap_length]
  · intro i n h
    rw [parse_display_report_tb, enumMap_getElem _ _ _ _ h]
  · intro i n h
    rw [parse_display_report_pnl, enumMap_getElem _ _ _ _ h]
  · intro i n h
    rw [parse_display_report_bs, enumMap_getElem _ _ _ _ h]
  · intro els i d h
    unfold reportAmtAt
    rw [h]
  · intro els i d e h ht
    rcases ht with ht | ⟨t, ht, hs⟩
    · simp [reportAmtAt, h, ht]
    · by_cases h1 : t = "" <;> simp [reportAmtAt, h, ht, h1, hs]

/-- Witness for C10: on a concrete payload with two display names and a
single debit element, the first trial-balance row pairs `Capital` with
debit index 0. -/
theorem c10_display_report_rows_witness :
    (parse_display_report c10Root "trial_balance")[0]? =
      some (ReportRow.tb "Capital" (reportAmtAt (c10Root.iterTag "DSPCLDRAMTA") 0 "")
        (reportAmtAt (c10Root.iterTag "DSPCLCRAMTA") 0 "")) :=
  (c10_display_report_rows c10Root).2.2.2.1 0 "Capital" (by decide)

/-! ## C4, C6, C7 — the orchestration loop -/

/-- Core invariant of the tool-calling loop: a run that does not end in
a final answer leaves the stored history untouched; a run that ends in
a final answer stores exactly the original query and that answer
(trimmed); and a run with `fuel` remaining rounds performs at most
`fuel` tool invocations. -/
theorem toolLoop_spec : ∀ (fuel : Nat) (env : OrchEnv) (q : String)
    (hist msgs : List Message),
    ((toolLoop env q hist msgs fuel).final = false →
      (toolLoop env q hist msgs fuel).hist = hist) ∧
    ((toolLoop env q hist msgs fuel).final = true →
      (toolLoop env q hist msgs fuel).hist =
        pyTrim (hist ++
          [⟨"user", q⟩, ⟨"assistant", (toolLoop env q hist msgs fuel).answer⟩])) ∧
    (toolLoop env q hist msgs fuel).toolCalls.length ≤ fuel
  | 0, env, q, hist, msgs => by
    refine ⟨fun _ => rfl, fun h => ?_, ?_⟩
    · exact absurd h (by simp [toolLoop])
    · simp [toolLoop]
  | fuel + 1, env, q, hist, msgs => by
    rcases hllm : env.llm msgs with e | resp
    · refine ⟨fun _ => by simp [toolLoop, hllm], fun hfin => ?_, ?_⟩
      · exfalso
        simp [toolLoop, hllm] at hfin
      · simp [toolLoop, hllm]
    · rcases hparse : parse_tool_call resp with _ | ⟨nm, kw⟩
      · refine ⟨fun hfin => ?_, fun _ => ?_, ?_⟩
        · exfalso
          simp [toolLoop, hllm, hparse] at hfin
        · simp [toolLoop, hllm, hparse]
        · simp [toolLoop, hllm, hparse]
      · have IH := fun ms => toolLoop_spec fuel env q hist ms
        refine ⟨fun hfin => ?_, fun hfin => ?_, ?_⟩
        · simp only [toolLoop, hllm, hparse] at hfin ⊢
          exact (IH _).1 hfin
        · simp only [toolLoop, hllm, hparse] at hfin ⊢
          exact (IH _).2.1 hfin
        · simp only [toolLoop, hllm, hparse, List.length_cons]
          exact Nat.succ_le_succ (IH _).2.2

/-- When every model response carries a tool call, the loop burns its
whole budget: one tool invocation per round and the budget answer. -/
theorem toolLoop_budget : ∀ (fuel : Nat) (env : OrchEnv) (q : String)
    (hist msgs : List Message),
    (∀ ms, ∃ resp nm kw, env.llm ms = .ok resp ∧
      parse_tool_call resp = some (nm, kw)) →
    (toolLoop env q hist msgs fuel).answer = budgetMsg ∧
    (toolLoop env q hist msgs fuel).toolCalls.length = fuel
  | 0, env, q, hist, msgs, _ => ⟨rfl, rfl⟩
  | fuel + 1, env, q, hist, msgs, h => by
    obtain ⟨resp, nm, kw, hllm, hparse⟩ := h msgs
    have IH := fun ms => toolLoop_budget fuel env q hist ms h
    simp only [toolLoop, hllm, hparse, List.length_cons]
    exact ⟨(IH _).1, by rw [(IH _).2]⟩

/-- C4: the orchestration loop performs at most 5 model-tool rounds —
`handle_query` never makes more than 5 tool invocations, and when every
round produces a tool call it makes exactly 5 and then returns the
fixed budget message instead of raising. -/
theorem c4_round_budget (env : OrchEnv) (sp q : String) (hist : List Message) :
    (handle_query env sp q hist).toolCalls.length ≤ 5 ∧
    ((∀ ms, ∃ resp nm kw, env.llm ms = .ok resp ∧
        parse_tool_call resp = some (nm, kw)) →
      (handle_query env sp q hist).answer =
        "Could not complete analysis. Please try a simpler question." ∧
      (handle_query env sp q hist).toolCalls.length = 5) := by
  refine ⟨(toolLoop_spec 5 env q hist _).2.2, fun h => ?_⟩
  exact toolLoop_budget 5 env q hist (⟨"system", sp⟩ :: hist ++ [⟨"user", q⟩]) h

/-- Witness for C4: an environment whose model always emits
`TOOL_CALL: get_all_ledgers()` drives the loop through exactly 5 tool
invocations and the fixed budget message. -/
theorem c4_round_budget_witness :
    (handle_query c4Env "sp" "q" []).answer =
      "Could not complete analysis. Please try a simpler question." ∧
    (handle_query c4Env "sp" "q" []).toolCalls.length = 5 :=
  (c4_round_budget c4Env "sp" "q" []).2
    (fun _ => ⟨"TOOL_CALL: get_all_ledgers()", "get_all_ledgers", [], rfl, by decide⟩)

/-- C6: the history stored for the user after a query contains no
intermediate tool-call or tool-result turns — when the loop ends in a
final answer, the stored history is the prior history plus exactly the
original user query and that answer (then trimmed), and on the other
outcomes the stored history is unchanged. -/
theorem c6_history_compact (env : OrchEnv) (sp q : String) (hist : List Message) :
    ((handle_query env sp q hist).final = true →
      (handle_query env sp q hist).hist =
        pyTrim (hist ++
          [⟨"user", q⟩, ⟨"assistant", (handle_query env sp q hist).answer⟩])) ∧
    ((handle_query env sp q hist).final = false →
      (handle_query env sp q hist).hist = hist) :=
  ⟨(toolLoop_spec 5 env q hist _).2.1, (toolLoop_spec 5 env q hist _).1⟩

/-- Witness for C6: a model that answers immediately appends exactly the
query and the answer to an empty history. -/
theorem c6_history_compact_witness :
    (handle_query c6Env "sp" "q" []).hist =
      pyTrim ([] ++
        [⟨"user", "q"⟩, ⟨"assistant", (handle_query c6Env "sp" "q" []).answer⟩]) :=
  (c6_history_compact c6Env "sp" "q" []).1 (by decide)

/-- Appending two turns and trimming caps the history at 20 entries,
keeping the most recent ones in order. -/
theorem pyTrim_spec (hist : List Message) (u a : Message) :
    (pyTrim (hist ++ [u, a])).length = min (hist.length + 2) 20 ∧
    (20 < hist.length + 2 →
      pyTrim (hist ++ [u, a]) = (hist ++ [u, a]).drop (hist.length + 2 - 20)) := by
  have hlen : (hist ++ [u, a]).length = hist.length + 2 := by simp
  constructor
  · unfold pyTrim
    by_cases hgt : (hist ++ [u, a]).length > 20
    · rw [if_pos hgt, List.length_drop, hlen]
      rw [hlen] at hgt
      omega
    · rw [if_neg hgt, hlen]
      rw [hlen] at hgt
      omega
  · intro h2
    unfold pyTrim
    rw [if_pos (by rw [hlen]; omega), hlen]

/-- C7: after a turn completes with a final answer, the stored history
length is `min (|hist| + 2) 20`, and whenever appending the
query-answer pair pushes the length beyond 20 the stored history is
exactly the 20 most recent entries in their original order. -/
theorem c7_history_cap (env : OrchEnv) (sp q : String) (hist : List Message)
    (hfin : (handle_query env sp q hist).final = true) :
    (handle_query env sp q hist).hist.length = min (hist.length + 2) 20 ∧
    (20 < hist.length + 2 →
      (handle_query env sp q hist).hist =
        (hist ++
          [(⟨"user", q⟩ : Message),
           ⟨"assistant", (handle_query env sp q hist).answer⟩]).drop
          (hist.length + 2 - 20)) := by
  unfold handle_query at hfin ⊢
  rw [(toolLoop_spec 5 env q hist _).2.1 hfin]
  exact pyTrim_spec hist _ _

/-- Witness for C7: with a stored history already at the 20-entry cap,
completing a turn leaves exactly 20 entries, the most recent ones. -/
theorem c7_history_cap_witness :
    (handle_query c7Env "sp" "q" c7Hist).hist.length = min (c7Hist.length + 2) 20 ∧
    (20 < c7Hist.length + 2 →
      (handle_query c7Env "sp" "q" c7Hist).hist =
        (c7Hist ++
          [(⟨"user", "q"⟩ : Message),
           ⟨"assistant", (handle_query c7Env "sp" "q" c7Hist).answer⟩]).drop
          (c7Hist.length + 2 - 20)) :=
  c7_history_cap c7Env "sp" "q" c7Hist (by decide)

/-! ## C8 — the tool-call directive parser -/

/-- A word character is not Python whitespace. -/
theorem isWordChar_not_pySpace (c : Char) (h : isWordChar c = true) :
    isPySpace c = false := by
  simp only [isWordChar, Bool.or_eq_true, Bool.and_eq_true, decide_eq_true_eq] at h
  simp only [isPySpace, Bool.or_eq_false_iff, decide_eq_false_iff_not]
  omega

/-- `dropLit` succeeds exactly on the literal prefix. -/
theorem dropLit_some : ∀ (p l r : List Char), dropLit p l = some r → l = p ++ r
  | [], l, r => by intro h; cases h; rfl
  | _ :: _, [], r => by intro h; cases h
  | p :: ps, c :: cs, r => by
    intro h
    unfold dropLit at h
    split at h
    · rename_i hc
      rw [List.cons_append, hc, dropLit_some ps cs r h]
    · cases h

/-- `dropLit` accepts its own literal. -/
theorem dropLit_self : ∀ (p r : List Char), dropLit p (p ++ r) = some r
  | [], r => rfl
  | c :: ps, r => by
    simp only [List.cons_append, dropLit, if_pos]
    exact dropLit_self ps r

/-- `takeWhile` over a satisfying block followed by a failing element. -/
theorem takeWhile_sat_stop {p : Char → Bool} :
    ∀ (xs : List Char) (y : Char) (rest : List Char),
    (∀ c ∈ xs, p c = true) → p y = false →
    (xs ++ y :: rest).takeWhile p = xs
  | [], y, rest => by
    intro _ hy
    simp [List.takeWhile_cons, hy]
  | x :: xs, y, rest => by
    intro hxs hy
    rw [List.cons_append, List.takeWhile_cons, hxs x (List.mem_cons_self x _),
      if_pos rfl]
    rw [takeWhile_sat_stop xs y rest (fun c hc => hxs c (List.mem_cons_of_mem _ hc)) hy]

/-- `dropWhile` over a satisfying block followed by a failing element. -/
theorem dropWhile_sat_stop {p : Char → Bool} :
    ∀ (xs : List Char) (y : Char) (rest : List Char),
    (∀ c ∈ xs, p c = true) → p y = false →
    (xs ++ y :: rest).dropWhile p = y :: rest
  | [], y, rest => by
    intro _ hy
    simp [List.dropWhile_cons, hy]
  | x :: xs, y, rest => by
    intro hxs hy
    rw [List.cons_append, List.dropWhile_cons, if_pos (hxs x (List.mem_cons_self x _))]
    exact dropWhile_sat_stop xs y rest (fun c hc => hxs c (List.mem_cons_of_mem _ hc)) hy

/-- Scanning for the first occurrence of `y` in `l ++ y :: post` stops
at an occurrence of `y`. -/
theorem dropWhile_ne_exists : ∀ (y : Char) (l post : List Char),
    ∃ r, (l ++ y :: post).dropWhile (fun c => c ≠ y) = y :: r
  | y, [], post => ⟨post, by simp [List.dropWhile_cons]⟩
  | y, c :: l, post => by
    by_cases hc : c = y
    · subst hc
      exact ⟨l ++ c :: post, by simp [List.dropWhile_cons]⟩
    · obtain ⟨r, hr⟩ := dropWhile_ne_exists y l post
      refine ⟨r, ?_⟩
      rw [List.cons_append, List.dropWhile_cons, if_pos (by simpa using hc)]
      exact hr

/-- Soundness of the anchored directive match: a success decomposes the
input into the documented shape. -/
theorem tryDirective_some_decomp (l : List Char) (n b : String)
    (h : tryDirective l = some (n, b)) :
    ∃ ws name body post : List Char,
      l = "TOOL_CALL:".data ++ ws ++ name ++ '(' :: body ++ ')' :: post ∧
      (∀ c ∈ ws, isPySpace c = true) ∧ name ≠ [] ∧
      (∀ c ∈ name, isWordChar c = true) ∧ n = ⟨name⟩ ∧ b = ⟨body⟩ := by
  unfold tryDirective at h
  rcases hd : dropLit "TOOL_CALL:".data l with _ | rest
  · rw [hd] at h; cases h
  · rw [hd] at h
    simp only at h
    split at h
    · cases h
    · rename_i hname
      split at h
      · rename_i rest4 hrest3
        split at h
        · rename_i post hpost
          cases h
          refine ⟨rest.takeWhile isPySpace, (rest.dropWhile isPySpace).takeWhile isWordChar,
            rest4.takeWhile (fun c => c ≠ ')'), post, ?_, ?_, hname, ?_, rfl, rfl⟩
          · have h4 : rest4 = rest4.takeWhile (fun c => c ≠ ')') ++ ')' :: post := by
              conv_lhs =>
                rw [← List.takeWhile_append_dropWhile (p := fun c => c ≠ ')') (l := rest4)]
              rw [hpost]
            have h3 : rest.dropWhile isPySpace =
                (rest.dropWhile isPySpace).takeWhile isWordChar ++ '(' :: rest4 := by
              conv_lhs =>
                rw [← List.takeWhile_append_dropWhile (p := isWordChar)
                  (l := rest.dropWhile isPySpace)]
              rw [hrest3]
            have h2 : rest = rest.takeWhile isPySpace ++ rest.dropWhile isPySpace :=
              (List.takeWhile_append_dropWhile _ _).symm
            rw [dropLit_some _ _ _ hd]
            conv_lhs => rw [h2, h3, h4]
            simp [List.append_assoc]
          · exact fun c hc => List.mem_takeWhile_imp hc
          · exact fun c hc => List.mem_takeWhile_imp hc
        · cases h
      · cases h

/-- Completeness of the anchored directive match: the documented shape
at the current position makes the match succeed. -/
theorem tryDirective_of_decomp (ws name body post : List Char)
    (hws : ∀ c ∈ ws, isPySpace c = true) (hname : name ≠ [])
    (hword : ∀ c ∈ name, isWordChar c = true) :
    ∃ r, tryDirective ("TOOL_CALL:".data ++ ws ++ name ++ '(' :: body ++ ')' :: post) =
      some r := by
  cases name with
  | nil => exact absurd rfl hname
  | cons nh nt =>
    refine ⟨(⟨nh :: nt⟩, ⟨(body ++ ')' :: post).takeWhile (fun c => c ≠ ')')⟩), ?_⟩
    unfold tryDirective
    rw [show "TOOL_CALL:".data ++ ws ++ (nh :: nt) ++ '(' :: body ++ ')' :: post =
        "TOOL_CALL:".data ++ (ws ++ nh :: (nt ++ '(' :: body ++ ')' :: post)) by
      simp]
    rw [dropLit_self]
    simp only
    rw [dropWhile_sat_stop ws nh (nt ++ '(' :: body ++ ')' :: post) hws
      (isWordChar_not_pySpace nh (hword nh (List.mem_cons_self nh nt)))]
    rw [show nh :: (nt ++ '(' :: body ++ ')' :: post) =
        (nh :: nt) ++ '(' :: (body ++ ')' :: post) by simp]
    rw [takeWhile_sat_stop (nh :: nt) '(' (body ++ ')' :: post) hword (by decide)]
    rw [dropWhile_sat_stop (nh :: nt) '(' (body ++ ')' :: post) hword (by decide)]
    rw [if_neg (by simp)]
    simp only
    obtain ⟨r, hr⟩ := dropWhile_ne_exists ')' body post
    rw [hr]
    rfl

/-- If the directive matches at some position, the leftmost search
succeeds. -/
theorem findDirective_isSome_append : ∀ (pre l : List Char),
    (∃ r, tryDirective l = some r) → (findDirective (pre ++ l)).isSome = true
  | [], l, h => by
    obtain ⟨r, hr⟩ := h
    cases l with
    | nil =>
      rw [show tryDirective ([] : List Char) = none from rfl] at hr
      cases hr
    | cons c rest =>
      simp only [List.nil_append, findDirective, hr, Option.isSome_some]
  | c :: pre, l, h => by
    rw [List.cons_append]
    rcases htry : tryDirective (c :: (pre ++ l)) with _ | r
    · simp only [findDirective, htry]
      exact findDirective_isSome_append pre l h
    · simp [findDirective, htry]

/-- A successful leftmost search exhibits the directive shape. -/
theorem findDirective_some_shape : ∀ (l : List Char) (n b : String),
    findDirective l = some (n, b) → DirectiveShape l
  | [], n, b => by
    intro h
    simp [findDirective] at h
  | c :: rest, n, b => by
    intro h
    rcases htry : tryDirective (c :: rest) with _ | r
    · simp only [findDirective, htry] at h
      obtain ⟨pre, ws, name, body, post, hl, hws, hname, hword⟩ :=
        findDirective_some_shape rest n b h
      exact ⟨c :: pre, ws, name, body, post,
        by rw [show (c :: pre) ++ "TOOL_CALL:".data ++ ws ++ name ++ '(' :: body ++ ')' :: post =
            c :: (pre ++ "TOOL_CALL:".data ++ ws ++ name ++ '(' :: body ++ ')' :: post) by
          simp]; rw [← hl], hws, hname, hword⟩
    · obtain ⟨ws, name, body, post, hl, hws, hname, hword, _, _⟩ :=
        tryDirective_some_decomp (c :: rest) r.1 r.2 (by simpa using htry)
      exact ⟨[], ws, name, body, post, by simpa using hl, hws, hname, hword⟩

/-- C8 core equivalence, "no call" direction: `parse_tool_call` returns
no call exactly when the text contains no directive of the shape
`TOOL_CALL: name(...)`. -/
theorem parse_tool_call_none_iff (t : String) :
    parse_tool_call t = none ↔ ¬ DirectiveShape t.data := by
  unfold parse_tool_call
  rcases hfd : findDirective t.data with _ | ⟨n, b⟩
  · simp only
    constructor
    · intro _ hshape
      obtain ⟨pre, ws, name, body, post, hl, hws, hname, hword⟩ := hshape
      obtain ⟨r, hr⟩ := tryDirective_of_decomp ws name body post hws hname hword
      have hsome := findDirective_isSome_append pre _ ⟨r, hr⟩
      have hl2 : t.data = pre ++
          ("TOOL_CALL:".data ++ ws ++ name ++ '(' :: body ++ ')' :: post) := by
        rw [hl]; simp [List.append_assoc]
      rw [← hl2] at hsome
      rw [hfd] at hsome
      cases hsome
    · intro _
      trivial
  · have hshape := findDirective_some_shape t.data n b hfd
    simp [hshape]

/-- A non-empty string has a non-empty character list. -/
theorem data_ne_nil (s : String) (h : s ≠ "") : s.data ≠ [] := by
  intro hd
  apply h
  cases s with
  | mk data =>
    simp only at hd
    rw [hd]

/-- The characters of one rendered argument. -/
theorem render1_data (p : String × String) :
    (render1 p).data = p.1.data ++ '=' :: '"' :: (p.2.data ++ ['"']) := by
  simp only [render1, String.data_append, List.append_assoc]
  rfl

/-- The argument matcher on a canonically rendered argument. -/
theorem tryArg_render (a v : String) (rest : List Char)
    (ha : a ≠ "") (haw : ∀ c ∈ a.data, isWordChar c = true)
    (hv : ∀ c ∈ v.data, c ≠ '"') :
    tryArg (a.data ++ '=' :: '"' :: (v.data ++ '"' :: rest)) = some ((a, v), rest) := by
  have hvb : ∀ c ∈ v.data, (decide (c ≠ '"')) = true := fun c hc => by
    simpa using hv c hc
  unfold tryArg
  rw [takeWhile_sat_stop a.data '=' ('"' :: (v.data ++ '"' :: rest)) haw (by decide)]
  rw [dropWhile_sat_stop a.data '=' ('"' :: (v.data ++ '"' :: rest)) haw (by decide)]
  rw [if_neg (data_ne_nil a ha)]
  rw [List.dropWhile_cons, if_neg (by decide)]
  simp only
  rw [List.dropWhile_cons, if_neg (by decide)]
  simp only
  rw [dropWhile_sat_stop v.data '"' rest hvb (by decide)]
  rw [takeWhile_sat_stop v.data '"' rest hvb (by decide)]
  rfl

/-- The argument matcher fails on a non-word head (the scan then
advances one character, as `finditer` does). -/
theorem tryArg_none_head (c : Char) (l : List Char) (h : isWordChar c = false) :
    tryArg (c :: l) = none := by
  simp [tryArg, List.takeWhile_cons, h]

/-- The argument scan of an empty remainder. -/
theorem findArgsAux_nil : ∀ fuel : Nat, findArgsAux fuel [] = []
  | 0 => rfl
  | _ + 1 => rfl

/-- A word character is not a closing parenthesis. -/
theorem isWordChar_ne_paren (c : Char) (h : isWordChar c = true) : c ≠ ')' := by
  intro he
  rw [he] at h
  exact absurd h (by decide)

/-- Splitting a rendered argument list at its first separator. -/
theorem renderArgs_split (p q : String × String) (rest : List (String × String)) :
    (renderArgs (p :: q :: rest)).data =
      (render1 p).data ++ ',' :: ' ' :: (renderArgs (q :: rest)).data := by
  simp only [renderArgs, String.data_append, List.append_assoc]
  rfl

/-- A rendered non-empty argument list ends in a double quote. -/
theorem renderArgs_ends : ∀ (p : String × String) (rest : List (String × String)),
    ∃ mid, (renderArgs (p :: rest)).data = mid ++ ['"']
  | p, [] => ⟨p.1.data ++ '=' :: '"' :: p.2.data, by
      show (render1 p).data = _
      simp [render1_data, List.append_assoc]⟩
  | p, q :: rest => by
    obtain ⟨mid, hm⟩ := renderArgs_ends q rest
    exact ⟨(render1 p).data ++ ',' :: ' ' :: mid, by
      rw [renderArgs_split, hm]
      simp [List.append_assoc]⟩

/-- A rendered argument has at least three characters. -/
theorem render1_len (p : String × String) : 3 ≤ (render1 p).data.length := by
  rw [render1_data]
  simp only [List.length_append, List.length_cons]
  omega

/-- A rendered non-empty argument list has at least three characters. -/
theorem renderArgs_len3 : ∀ (p : String × String) (rest : List (String × String)),
    3 ≤ (renderArgs (p :: rest)).data.length
  | p, [] => render1_len p
  | p, q :: rest => by
    rw [renderArgs_split]
    simp only [List.length_append, List.length_cons]
    have := render1_len p
    omega

/-- A rendered non-empty argument list starts with the first argument
name. -/
theorem renderArgs_head : ∀ (p : String × String) (rest : List (String × String)),
    ∃ tail, (renderArgs (p :: rest)).data = p.1.data ++ tail
  | p, [] => ⟨'=' :: '"' :: (p.2.data ++ ['"']), render1_data p⟩
  | p, q :: rest => ⟨'=' :: '"' :: (p.2.data ++ ['"']) ++
      ',' :: ' ' :: (renderArgs (q :: rest)).data, by
    rw [renderArgs_split, render1_data]
    simp [List.append_assoc]⟩

/-- A rendered non-empty argument list, seen from both ends. -/
theorem renderArgs_shape (p : String × String) (rest : List (String × String))
    (c : Char) (cs : List Char) (hp : p.1.data = c :: cs) :
    ∃ mid, (renderArgs (p :: rest)).data = c :: (mid ++ ['"']) := by
  obtain ⟨tail, ht⟩ := renderArgs_head p rest
  obtain ⟨mid, hm⟩ := renderArgs_ends p rest
  have hlen := renderArgs_len3 p rest
  rcases mid with _ | ⟨m, mid'⟩
  · rw [hm] at hlen
    simp at hlen
  · have h2 : (renderArgs (p :: rest)).data = c :: (cs ++ tail) := by
      rw [ht, hp, List.cons_append]
    have h3 : c :: (cs ++ tail) = m :: (mid' ++ ['"']) := by
      rw [← h2, hm, List.cons_append]
    have h4 := List.cons.inj h3
    refine ⟨mid', ?_⟩
    rw [h2, h4.2]

/-- No closing parenthesis occurs in a rendered argument list whose
values avoid it. -/
theorem renderArgs_no_paren : ∀ (ps : List (String × String)),
    (∀ p ∈ ps, (∀ c ∈ p.1.data, isWordChar c = true) ∧ (∀ c ∈ p.2.data, c ≠ ')')) →
    ∀ c ∈ (renderArgs ps).data, c ≠ ')'
  | [], _ => by
    intro c hc
    simp [renderArgs] at hc
  | [p], h => by
    intro c hc
    have hp := h p (List.mem_cons_self p [])
    rw [show (renderArgs [p]).data = (render1 p).data from rfl, render1_data] at hc
    simp only [List.mem_append, List.mem_cons, List.mem_singleton] at hc
    rcases hc with hc | hc | hc | hc | hc | hc
    · exact isWordChar_ne_paren c (hp.1 c hc)
    · subst hc; decide
    · subst hc; decide
    · exact hp.2 c hc
    · subst hc; decide
    · simp at hc
  | p :: q :: rest, h => by
    intro c hc
    have hp := h p (List.mem_cons_self p _)
    rw [renderArgs_split, render1_data] at hc
    simp only [List.mem_append, List.mem_cons, List.mem_singleton] at hc
    rcases hc with (hc | hc | hc | hc | hc | hc) | hc | hc | hc
    · exact isWordChar_ne_paren c (hp.1 c hc)
    · subst hc; decide
    · subst hc; decide
    · exact hp.2 c hc
    · subst hc; decide
    · simp at hc
    · subst hc; decide
    · subst hc; decide
    · exact renderArgs_no_paren (q :: rest)
        (fun r hr => h r (List.mem_cons_of_mem _ hr)) c hc

/-- Scanning a canonically rendered argument list recovers exactly the
written pairs, given enough fuel. -/
theorem findArgsAux_render : ∀ (ps : List (String × String)), ps ≠ [] →
    (∀ p ∈ ps, p.1 ≠ "" ∧ (∀ c ∈ p.1.data, isWordChar c = true) ∧
      (∀ c ∈ p.2.data, c ≠ '"')) →
    ∀ fuel : Nat, (renderArgs ps).data.length ≤ fuel →
    findArgsAux fuel (renderArgs ps).data = ps
  | [], hne, _, _, _ => absurd rfl hne
  | [p], _, h, fuel, hfuel => by
    obtain ⟨hp1, hp1w, hp2⟩ := h p (List.mem_cons_self p [])
    have htry : tryArg ((renderArgs [p]).data) = some ((p.1, p.2), []) := by
      rw [show (renderArgs [p]).data = (render1 p).data from rfl, render1_data]
      exact tryArg_render p.1 p.2 [] hp1 hp1w hp2
    have hlen := renderArgs_len3 p []
    rcases hd : (renderArgs [p]).data with _ | ⟨c0, L⟩
    · rw [hd] at hlen
      simp at hlen
    · rw [hd] at hfuel
      rcases fuel with _ | f
      · simp at hfuel
      · rw [hd] at htry
        simp only [findArgsAux, htry]
        rw [findArgsAux_nil f]
  | p :: q :: rest, _, h, fuel, hfuel => by
    obtain ⟨hp1, hp1w, hp2⟩ := h p (List.mem_cons_self p _)
    have hform : (render1 p).data ++ ',' :: ' ' :: (renderArgs (q :: rest)).data =
        p.1.data ++ '=' :: '"' :: (p.2.data ++
          '"' :: (',' :: ' ' :: (renderArgs (q :: rest)).data)) := by
      rw [render1_data]
      simp [List.append_assoc]
    have htry : tryArg ((renderArgs (p :: q :: rest)).data) =
        some ((p.1, p.2), ',' :: ' ' :: (renderArgs (q :: rest)).data) := by
      rw [renderArgs_split, hform]
      exact tryArg_render p.1 p.2 (',' :: ' ' :: (renderArgs (q :: rest)).data)
        hp1 hp1w hp2
    have hr1 := render1_len p
    have hR := renderArgs_len3 q rest
    have hsplitlen : (renderArgs (p :: q :: rest)).data.length =
        (render1 p).data.length + ((renderArgs (q :: rest)).data.length + 2) := by
      rw [renderArgs_split]
      simp only [List.length_append, List.length_cons]
    rcases hd : (renderArgs (p :: q :: rest)).data with _ | ⟨c0, L⟩
    · rw [hd] at hsplitlen
      simp at hsplitlen
      omega
    · rw [hd] at hfuel hsplitlen
      rcases fuel with _ | f
      · simp at hfuel
      · rw [hd] at htry
        simp only [findArgsAux, htry]
        have hf : (renderArgs (q :: rest)).data.length + 2 ≤ f := by
          simp only [List.length_cons] at hfuel hsplitlen
          omega
        rcases f with _ | f1
        · omega
        · simp only [findArgsAux, tryArg_none_head ',' _ (by decide)]
          rcases f1 with _ | f2
          · omega
          · simp only [findArgsAux, tryArg_none_head ' ' _ (by decide)]
            rw [findArgsAux_render (q :: rest) (by simp)
              (fun r hr => h r (List.mem_cons_of_mem _ hr)) f2 (by omega)]

/-- `findArgs` on a canonically rendered argument list. -/
theorem findArgs_render (ps : List (String × String)) (hne : ps ≠ [])
    (h : ∀ p ∈ ps, p.1 ≠ "" ∧ (∀ c ∈ p.1.data, isWordChar c = true) ∧
      (∀ c ∈ p.2.data, c ≠ '"')) :
    findArgs (renderArgs ps).data = ps :=
  findArgsAux_render ps hne h _ (le_refl _)

/-- `dict` insertion of a fresh key appends it. -/
theorem dictInsert_append : ∀ (d : List (String × String)) (k v : String),
    (∀ q ∈ d, q.1 ≠ k) → dictInsert d k v = d ++ [(k, v)]
  | [], k, v, _ => rfl
  | (k0, v0) :: d, k, v, h => by
    unfold dictInsert
    rw [if_neg (h (k0, v0) (List.mem_cons_self _ _))]
    rw [dictInsert_append d k v (fun q hq => h q (List.mem_cons_of_mem _ hq))]
    rfl

/-- Folding `dict` insertions of pairwise-fresh keys appends them all. -/
theorem foldl_dictInsert : ∀ (ps d : List (String × String)),
    (∀ p ∈ ps, ∀ q ∈ d, q.1 ≠ p.1) → (ps.map Prod.fst).Nodup →
    ps.foldl (fun acc p => dictInsert acc p.1 p.2) d = d ++ ps
  | [], d, _, _ => by simp
  | p :: ps, d, hdisj, hnodup => by
    rw [List.foldl_cons]
    rw [dictInsert_append d p.1 p.2 (fun q hq => hdisj p (List.mem_cons_self _ _) q hq)]
    rw [List.map_cons] at hnodup
    have hcons := List.nodup_cons.mp hnodup
    have hpm : p.1 ∉ ps.map Prod.fst := hcons.1
    have hnodup2 : (ps.map Prod.fst).Nodup := hcons.2
    have hdisj2 : ∀ r ∈ ps, ∀ q ∈ d ++ [(p.1, p.2)], q.1 ≠ r.1 := by
      intro r hr q hq
      rcases List.mem_append.mp hq with hq | hq
      · exact hdisj r (List.mem_cons_of_mem _ hr) q hq
      · rw [List.mem_singleton.mp hq]
        intro he
        exact hpm (he ▸ List.mem_map_of_mem Prod.fst hr)
    rw [foldl_dictInsert ps (d ++ [(p.1, p.2)]) hdisj2 hnodup2]
    simp

/-- Building the kwargs dict over distinct argument names is the
identity. -/
theorem buildKwargs_eq (ps : List (String × String))
    (h : (ps.map Prod.fst).Nodup) : buildKwargs ps = ps := by
  unfold buildKwargs
  rw [foldl_dictInsert ps [] (by intro p _ q hq; cases hq) h]
  rfl

/-- `pyStrip` keeps a string whose first character is not whitespace and
whose last character is a double quote. -/
theorem pyStrip_shape (c : Char) (mid : List Char) (hc : isPySpace c = false) :
    pyStrip ⟨c :: (mid ++ ['"'])⟩ = ⟨c :: (mid ++ ['"'])⟩ := by
  unfold pyStrip
  simp only
  rw [List.dropWhile_cons, if_neg (by simp [hc])]
  rw [show (c :: (mid ++ ['"'])).reverse = '"' :: (mid.reverse ++ [c]) by simp]
  rw [List.dropWhile_cons, if_neg (by decide)]
  simp


/-- The anchored directive match on a canonically rendered call: single
space, word name, body free of closing parentheses, nothing after. -/
theorem tryDirective_render_exact (name body : List Char)
    (hname : name ≠ []) (hword : ∀ c ∈ name, isWordChar c = true)
    (hbody : ∀ c ∈ body, c ≠ ')') :
    tryDirective ("TOOL_CALL:".data ++ ' ' :: (name ++ '(' :: (body ++ [')']))) =
      some (⟨name⟩, ⟨body⟩) := by
  cases name with
  | nil => exact absurd rfl hname
  | cons nh nt =>
    unfold tryDirective
    rw [dropLit_self]
    simp only
    rw [show (' ' :: ((nh :: nt) ++ '(' :: (body ++ [')']))) =
        ([' '] ++ nh :: (nt ++ '(' :: (body ++ [')']))) by simp]
    rw [dropWhile_sat_stop [' '] nh (nt ++ '(' :: (body ++ [')']))
      (by intro c hc; simp at hc; subst hc; decide)
      (isWordChar_not_pySpace nh (hword nh (List.mem_cons_self nh nt)))]
    rw [show nh :: (nt ++ '(' :: (body ++ [')'])) =
        (nh :: nt) ++ '(' :: (body ++ [')']) by simp]
    rw [takeWhile_sat_stop (nh :: nt) '(' (body ++ [')']) hword (by decide)]
    rw [dropWhile_sat_stop (nh :: nt) '(' (body ++ [')']) hword (by decide)]
    rw [if_neg (by simp)]
    simp only
    have hbodyb : ∀ c ∈ body, (decide (c ≠ ')')) = true := fun c hc => by
      simpa using hbody c hc
    rw [show body ++ [')'] = body ++ ')' :: ([] : List Char) from rfl]
    rw [dropWhile_sat_stop body ')' [] hbodyb (by decide)]
    rw [takeWhile_sat_stop body ')' [] hbodyb (by decide)]
    rfl

/-- The characters of a canonically rendered directive. -/
theorem renderDirective_data (tool : String) (ps : List (String × String)) :
    (renderDirective tool ps).data =
      "TOOL_CALL:".data ++ ' ' :: (tool.data ++ '(' :: ((renderArgs ps).data ++ [')'])) := by
  simp only [renderDirective, String.data_append, List.append_assoc]
  rfl

/-- The leftmost search on a canonically rendered directive finds it at
the start. -/
theorem findDirective_render (name body : List Char)
    (hname : name ≠ []) (hword : ∀ c ∈ name, isWordChar c = true)
    (hbody : ∀ c ∈ body, c ≠ ')') :
    findDirective ("TOOL_CALL:".data ++ ' ' :: (name ++ '(' :: (body ++ [')']))) =
      some (⟨name⟩, ⟨body⟩) := by
  have htry2 : tryDirective
      ('T' :: ("OOL_CALL:".data ++ ' ' :: (name ++ '(' :: (body ++ [')'])))) =
      some (⟨name⟩, ⟨body⟩) := tryDirective_render_exact name body hname hword hbody
  show findDirective
      ('T' :: ("OOL_CALL:".data ++ ' ' :: (name ++ '(' :: (body ++ [')'])))) =
      some (⟨name⟩, ⟨body⟩)
  simp only [findDirective, htry2]

/-- C8 (amended): `parse_tool_call` returns no call exactly when the text
contains no directive of the shape `TOOL_CALL: name(...)`; and on a
canonically written directive whose argument names are non-empty words
with distinct names and whose values contain neither a double quote nor
a closing parenthesis, it returns the tool name with exactly the written
pairs. (The original claim promised the written pairs for all
double-quoted values; a value containing a closing parenthesis truncates
the captured argument text, so that reading is false — see the
counterexample.) -/
theorem c8_tool_call_parse (t tool : String) (ps : List (String × String)) :
    (parse_tool_call t = none ↔ ¬ DirectiveShape t.data) ∧
    (tool ≠ "" → (∀ c ∈ tool.data, isWordChar c = true) → ValidArgs ps →
      parse_tool_call (renderDirective tool ps) = some (tool, ps)) := by
  refine ⟨parse_tool_call_none_iff t, ?_⟩
  intro htool hword hvalid
  have hnp : ∀ c ∈ (renderArgs ps).data, c ≠ ')' :=
    renderArgs_no_paren ps (fun p hp =>
      ⟨(hvalid.1 p hp).2.1, fun c hc => ((hvalid.1 p hp).2.2 c hc).2⟩)
  have hfd : findDirective (renderDirective tool ps).data =
      some (tool, renderArgs ps) := by
    rw [renderDirective_data]
    exact findDirective_render tool.data (renderArgs ps).data
      (data_ne_nil tool htool) hword hnp
  unfold parse_tool_call
  rw [hfd]
  simp only
  rcases ps with _ | ⟨p, rest⟩
  · rfl
  · obtain ⟨hp1ne, hp1w, _⟩ := hvalid.1 p (List.mem_cons_self p rest)
    rcases hd : p.1.data with _ | ⟨c, cs⟩
    · exact absurd hd (data_ne_nil p.1 hp1ne)
    · have hcw : isWordChar c = true := hp1w c (by rw [hd]; exact List.mem_cons_self c cs)
      have hcns : isPySpace c = false := isWordChar_not_pySpace c hcw
      obtain ⟨mid, hmid⟩ := renderArgs_shape p rest c cs hd
      have hS : renderArgs (p :: rest) = ⟨c :: (mid ++ ['"'])⟩ :=
        congrArg String.mk hmid
      have hstrip : pyStrip (renderArgs (p :: rest)) = renderArgs (p :: rest) := by
        rw [hS]
        exact pyStrip_shape c mid hcns
      have hne2 : pyStrip (renderArgs (p :: rest)) ≠ "" := by
        rw [hstrip, hS]
        intro h
        have h2 := congrArg String.data h
        simp at h2
      have hargs : ∀ r ∈ p :: rest, r.1 ≠ "" ∧ (∀ ch ∈ r.1.data, isWordChar ch = true) ∧
          (∀ ch ∈ r.2.data, ch ≠ '"') := fun r hr =>
        ⟨(hvalid.1 r hr).1, (hvalid.1 r hr).2.1,
          fun ch hc => ((hvalid.1 r hr).2.2 ch hc).1⟩
      rw [if_neg hne2, hstrip]
      rw [findArgs_render (p :: rest) (by simp) hargs]
      rw [buildKwargs_eq (p :: rest) hvalid.2]

/-- C8 counterexample: a value containing a closing parenthesis truncates
the captured argument text, so the written pair is not recovered. -/
theorem c8_value_paren_truncates :
    parse_tool_call (renderDirective "f" [("a", ")")]) = some ("f", []) ∧
    parse_tool_call (renderDirective "f" [("a", ")")]) ≠
      some ("f", [("a", ")")]) := by
  constructor
  · decide
  · decide

/-- C8 at concrete inputs: a directive-free question yields no call, and
a rendered one-argument call is parsed back exactly. -/
theorem c8_tool_call_parse_witness :
    ¬ DirectiveShape "What is the cash balance?".data ∧
    parse_tool_call (renderDirective "get_transactions_for_date"
      [("date", "20250701")]) =
      some ("get_transactions_for_date", [("date", "20250701")]) :=
  ⟨(c8_tool_call_parse "What is the cash balance?" "f" []).1.mp (by decide),
   (c8_tool_call_parse "x" "get_transactions_for_date" [("date", "20250701")]).2
     (by decide) (by decide) ⟨by decide, by decide⟩⟩

end CortexAI
